import Mathlib

/-!
Verification of src/contract/cofiblocks-contract (lib.rs, u256.rs): a CLI
that deploys an ERC-1155-style contract on Starknet and queries balances.

Field elements are embedded as Nat.  The modelled code paths perform no
field arithmetic on felts, only conversions from bounded integers
(u128 -> felt, usize length -> felt), bounds checks against the Stark
prime when a felt is parsed from a string, and hex formatting, so the
embedding is exact on every reachable value.  A panic (a failed unwrap,
an out-of-bounds index, an explicit panic call) is modelled as none /
a dedicated constructor.  External effects (keystore, RPC transport)
enter as parameters: deploy and show consume a trace of provider
responses and produce the requests and output they would emit.
-/

namespace Marketplace

/-- The Stark field prime: the modulus of Starknet field elements. -/
def starkPrime : Nat := 2 ^ 251 + 17 * 2 ^ 192 + 1

/-- Cairo short string encoding (the short_string macro and
chain_id::MAINNET): the ASCII bytes of the string read big-endian. -/
def cairoShortString (s : String) : Nat :=
  s.data.foldl (fun acc c => acc * 256 + c.toNat) 0

/-- lib.rs Network: the supported Starknet networks. -/
inductive Network
  | mainnet
  | sepolia
deriving DecidableEq

/-- lib.rs class_hash (lines 64..71): resolves the ERC1155 class hash;
panics with "Network not supported yet" on Mainnet. -/
def class_hash : Network → Option Nat
  | .mainnet => none
  | .sepolia => some 0x0120d1f2225704b003e77077b8507907d2a84239bef5e0abb67462495edd644f

/-- lib.rs client (lines 74..82): resolves the JSON-RPC client, embedded
by its endpoint URL; panics with "Network not supported yet" on Mainnet. -/
def clientOf : Network → Option String
  | .mainnet => none
  | .sepolia => some "https://starknet-sepolia.public.blastapi.io/rpc/v0_6"

/-- lib.rs chain_id (lines 85..90): total over both networks. -/
def chain_id : Network → Nat
  | .mainnet => cairoShortString "SN_MAIN"
  | .sepolia => cairoShortString "SN_SEPOLIA"

/-- Value of one hexadecimal digit character (0-9, a-f, A-F). -/
def hexVal? (c : Char) : Option Nat :=
  if 48 ≤ c.toNat ∧ c.toNat ≤ 57 then some (c.toNat - 48)
  else if 97 ≤ c.toNat ∧ c.toNat ≤ 102 then some (c.toNat - 87)
  else if 65 ≤ c.toNat ∧ c.toNat ≤ 70 then some (c.toNat - 55)
  else none

/-- hex crate decoding: two hex characters per byte; fails on an odd
length or a character that is not a hex digit. -/
def hexBytes? : List Char → Option (List Nat)
  | [] => some []
  | [_] => none
  | hi :: lo :: rest => do
      let h ← hexVal? hi
      let l ← hexVal? lo
      let bs ← hexBytes? rest
      pure ((16 * h + l) :: bs)

/-- u128::from_be_bytes: big-endian interpretation of a byte list. -/
def fromBeBytes (bs : List Nat) : Nat :=
  bs.foldl (fun acc b => acc * 256 + b) 0

/-- u256.rs U256: an unsigned 256-bit integer as low and high 128-bit
halves (each a Rust u128, so below 2^128 on every reachable value). -/
structure U256 where
  low : Nat
  high : Nat
deriving DecidableEq

/-- u256.rs U256::cairo_serialize (lines 16..20): the low felt then the
high felt. -/
def U256.cairo_serialize (x : U256) : List Nat := [x.low, x.high]

/-- Outcome of U256::cairo_deserialize: Ok, the Deserialize error, or a
panic (an out-of-bounds index or a failed try_into unwrap). -/
inductive DeserOutcome
  | ok (v : U256)
  | deserializeError
  | panicked
deriving DecidableEq

/-- u256.rs U256::cairo_deserialize (lines 22..36): guards only
offset >= felts.len(), then indexes felts[offset] and felts[offset + 1]
(the second read is out of bounds when the buffer has exactly offset + 1
elements) and converts each felt to u128 with try_into().unwrap(). -/
def U256.cairo_deserialize (felts : List Nat) (offset : Nat) : DeserOutcome :=
  if felts.length ≤ offset then .deserializeError
  else
    match felts.get? offset, felts.get? (offset + 1) with
    | some l, some h =>
        if l < 2 ^ 128 ∧ h < 2 ^ 128 then .ok ⟨l, h⟩ else .panicked
    | _, _ => .panicked

/-- cainome Vec::<U256>::cairo_serialize: a length felt, then each
element's two felts. -/
def vecU256Serialize (xs : List U256) : List Nat :=
  xs.length :: xs.flatMap U256.cairo_serialize

/-- cainome Vec::<FieldElement>::cairo_serialize: a length felt, then
the felts themselves. -/
def vecFeltSerialize (xs : List Nat) : List Nat := xs.length :: xs

/-- lib.rs tokens_to_felts (lines 140..146), one token name:
hex::decode_to_slice into a 32-byte buffer (unwrap panics unless the
name is exactly 64 hex characters), then a U256 whose high half is the
big-endian value of bytes 16..32 and whose low half is the big-endian
value of bytes 0..16. -/
def tokenToU256 (name : String) : Option U256 :=
  if name.length = 64 then
    (hexBytes? name.data).map fun bytes =>
      { low := fromBeBytes (bytes.take 16), high := fromBeBytes (bytes.drop 16) }
  else none

/-- The for loop of lib.rs tokens_to_felts (lines 139..147): each name
is decoded and pushed in order; the first failed decode panics. -/
def tokensToU256s : List String → Option (List U256)
  | [] => some []
  | n :: rest =>
      (tokenToU256 n).bind fun u => (tokensToU256s rest).map fun us => u :: us

/-- lib.rs tokens_to_felts (lines 137..149): every name through
tokenToU256 (a failed decode panics), then Vec::<U256>::cairo_serialize. -/
def tokens_to_felts (token_names : List String) : Option (List Nat) :=
  (tokensToU256s token_names).map vecU256Serialize

/-- The encoding claimed for a 64-hex-character token name: the value is
the big-endian interpretation of the 32 decoded bytes, the low felt its
low-order 128 bits (bytes 16..32), the high felt its high-order 128 bits
(bytes 0..16). -/
def tokenU256Claimed (name : String) : Option U256 :=
  if name.length = 64 then
    (hexBytes? name.data).map fun bytes =>
      { low := fromBeBytes (bytes.drop 16), high := fromBeBytes (bytes.take 16) }
  else none

/-- starknet FieldElement::from_hex_be: an optional 0x, then hex digits;
the value must lie below the Stark prime. -/
def fromHexBe (s : String) : Option Nat :=
  let ds := if s.data.take 2 = ['0', 'x'] then s.data.drop 2 else s.data
  if ds = [] then none
  else
    (ds.mapM hexVal?).bind fun vs =>
      let v := vs.foldl (fun acc d => acc * 16 + d) 0
      if v < starkPrime then some v else none

/-- starknet FieldElement::from_str: 0x-prefixed input parses as hex,
anything else as decimal, bounded by the Stark prime. -/
def fromStrFelt (s : String) : Option Nat :=
  if s.data.take 2 = ['0', 'x'] then fromHexBe s
  else if s.data = [] then none
  else
    (s.data.mapM fun c =>
      if 48 ≤ c.toNat ∧ c.toNat ≤ 57 then some (c.toNat - 48) else none).bind
      fun vs =>
        let v := vs.foldl (fun acc d => acc * 10 + d) 0
        if v < starkPrime then some v else none

/-- starknet ExecutionResult of a transaction receipt. -/
inductive ExecResult
  | succeeded
  | reverted (reason : String)
deriving DecidableEq

/-- A provider error from get_transaction_receipt: the StarknetError
TransactionHashNotFound, or any other provider error. -/
inductive ProviderErr
  | txHashNotFound
  | otherFailure (e : String)
deriving DecidableEq

/-- One get_transaction_receipt response: a receipt or a provider error. -/
inductive PollOutcome
  | receipt (r : ExecResult)
  | err (e : ProviderErr)
deriving DecidableEq

/-- lib.rs ClientError (lines 53..61). -/
inductive ClientError
  | transactionReverted (reason : String)
  | provider (e : ProviderErr)
deriving DecidableEq

/-- lib.rs watch_tx (lines 107..135) on a trace of provider responses:
a Succeeded receipt returns Ok, a Reverted receipt returns
TransactionReverted with the reason, TransactionHashNotFound polls
again, any other provider error is returned; none means the trace ran
out while the loop was still polling. -/
def watch_tx : List PollOutcome → Option (Except ClientError Unit)
  | [] => none
  | .receipt .succeeded :: _ => some (.ok ())
  | .receipt (.reverted reason) :: _ =>
      some (.error (.transactionReverted reason))
  | .err .txHashNotFound :: rest => watch_tx rest
  | .err (.otherFailure e) :: _ => some (.error (.provider (.otherFailure e)))

/-- The decisive return of one poll response, none when the loop keeps
polling: the branch watch_tx takes on the head of its trace. -/
def pollDecision : PollOutcome → Option (Except ClientError Unit)
  | .receipt .succeeded => some (.ok ())
  | .receipt (.reverted reason) => some (.error (.transactionReverted reason))
  | .err .txHashNotFound => none
  | .err (.otherFailure e) => some (.error (.provider (.otherFailure e)))

/-- The sleep durations watch_tx performs on a trace: one poll_interval
sleep after each TransactionHashNotFound response; the decisive
responses return before the sleep at the bottom of the loop. -/
def watchTxSleeps : List PollOutcome → Nat → List Nat
  | [], _ => []
  | .err .txHashNotFound :: rest, p => p :: watchTxSleeps rest p
  | .receipt _ :: _, _ => []
  | .err (.otherFailure _) :: _, _ => []

/-- lib.rs ContractTokensInfo: a token name and its u64 value. -/
structure ContractTokensInfo where
  name : String
  value : Nat
deriving DecidableEq

/-- lib.rs ContractSpec: the base URI and the tokens. -/
structure ContractSpec where
  base_uri : String
  tokens : List ContractTokensInfo
deriving DecidableEq

/-- The Rust cast `as u128`: truncation to 128 bits (lossless from u64). -/
def castU128 (n : Nat) : Nat := n % 2 ^ 128

/-- lib.rs deploy_contract (lines 197..204): the token values as U256
with a zero high half. -/
def deployValues (spec : ContractSpec) : List U256 :=
  spec.tokens.map fun t => { low := castU128 t.value, high := 0 }

/-- lib.rs deploy_contract (lines 182..205): the constructor calldata:
the cainome ByteArray serialization of the base URI (external library
code, a parameter here), the recipient felt, the serialized token ids,
the serialized token values.  none models a panic on a failed unwrap. -/
def deployCtorArgs (byteArraySer : String → List Nat) (spec : ContractSpec)
    (recipient : String) : Option (List Nat) :=
  (fromHexBe recipient).bind fun recipientFelt =>
    (tokens_to_felts (spec.tokens.map ContractTokensInfo.name)).map fun tokenFelts =>
      byteArraySer spec.base_uri ++ [recipientFelt] ++ tokenFelts
        ++ vecU256Serialize (deployValues spec)

/-- Observable behaviour of one deploy_contract run: the constructor
calldata submitted, the poll interval handed to watch_tx, the watch_tx
result on the given response trace, and the sleeps performed. -/
structure DeployTrace where
  ctorArgs : List Nat
  pollIntervalMillis : Nat
  watchResult : Option (Except ClientError Unit)
  sleepsMillis : List Nat

/-- lib.rs deploy_contract (lines 153..235): resolves the client and the
class hash (both panic on Mainnet, before any network request), parses
the account address, builds the constructor calldata, submits, then
watches the deployment transaction with Duration::from_millis(1000).
The keystore, fee estimation and submission are external effects; the
receipt-poll trace is the parameter.  none models a panic. -/
def deploy_contract (byteArraySer : String → List Nat) (network : Network)
    (address : String) (recipient : String) (spec : ContractSpec)
    (polls : List PollOutcome) : Option DeployTrace :=
  (clientOf network).bind fun _ =>
  (class_hash network).bind fun _ =>
  (fromStrFelt address).bind fun _ =>
  (deployCtorArgs byteArraySer spec recipient).map fun args =>
    { ctorArgs := args
      pollIntervalMillis := 1000
      watchResult := watch_tx polls
      sleepsMillis := watchTxSleeps polls 1000 }

/-- starknet BlockId tag. -/
inductive BlockTagM
  | latest
  | pending
deriving DecidableEq

/-- The function call show_contract submits: the target contract, the
entry point by name (the selector is the starknet hash of this name),
the calldata and the queried block. -/
structure CallRequest where
  contract_address : Nat
  entry_point : String
  calldata : List Nat
  blockTag : BlockTagM
deriving DecidableEq

/-- The map over accounts in lib.rs show_contract (lines 246..249):
each account parsed with FieldElement::from_hex_be in order; the first
failed parse panics. -/
def accountFelts? : List String → Option (List Nat)
  | [] => some []
  | a :: rest =>
      (fromHexBe a).bind fun v => (accountFelts? rest).map fun vs => v :: vs

/-- lib.rs show_contract (lines 238..265): resolves the client (panics
on Mainnet), parses the contract address and the account addresses,
then calls balance_of_batch at the Pending block with the serialized
account array followed by the serialized token-id array.  none models a
panic. -/
def showContractRequest (network : Network) (contract_address : String)
    (accounts : List String) (tokens : List String) : Option CallRequest :=
  (clientOf network).bind fun _ =>
  (fromHexBe contract_address).bind fun ca =>
  (accountFelts? accounts).bind fun accountFelts =>
  (tokens_to_felts tokens).map fun tokenFelts =>
    { contract_address := ca
      entry_point := "balance_of_batch"
      calldata := vecFeltSerialize accountFelts ++ tokenFelts
      blockTag := .pending }

/-- The Rust format string "{:#064x}": 0x, then the lowercase hex digits
of the value, zero-padded on the left until the whole string reaches 64
characters; the 0x counts toward the width, so a small value carries 62
hex digits. -/
def rustHexFmt64 (x : Nat) : String :=
  let ds := Nat.toDigits 16 x
  "0x" ++ String.mk (List.replicate (62 - ds.length) '0' ++ ds)

/-- The formatting the claim states: 0x followed by the value
zero-padded to exactly 64 hex digits. -/
def hex64Digits (x : Nat) : String :=
  let ds := Nat.toDigits 16 x
  "0x" ++ String.mk (List.replicate (64 - ds.length) '0' ++ ds)

/-- lib.rs show_contract (lines 267..285): the printed lines: "[]" for
an empty result, otherwise a bracket line, one line per element with a
trailing comma on all but the last, and a closing bracket line. -/
def showContractOutput (result : List Nat) : List String :=
  if result.isEmpty then ["[]"]
  else
    "[" ::
      (result.enum.map fun p =>
        "    \"" ++ rustHexFmt64 p.2 ++ "\"" ++
          (if p.1 = result.length - 1 then "" else ",")) ++ ["]"]

/-- The 64-hex-character token name of the value 1: 63 zeros then 1. -/
def tokenNameOne : String :=
  "0000000000000000000000000000000000000000000000000000000000000001"

/-- The 64-hex-character token name of the value 0. -/
def tokenNameZero : String :=
  "0000000000000000000000000000000000000000000000000000000000000000"

/-! ## Shared lemmas -/

/-- A successful token-decoding loop yields one U256 per name. -/
theorem tokensToU256s_length (l : List String) (us : List U256)
    (h : tokensToU256s l = some us) : us.length = l.length := by
  induction l generalizing us with
  | nil =>
      cases h
      rfl
  | cons n t ih =>
      unfold tokensToU256s at h
      cases hn : tokenToU256 n <;> rw [hn] at h
      · cases h
      · cases ht : tokensToU256s t <;> rw [ht] at h
        · cases h
        · cases h
          simp [ih _ ht]

/-- The element serializer of the u256 vector, pointwise. -/
theorem flatMap_serialize (us : List U256) :
    us.flatMap U256.cairo_serialize = us.flatMap fun u => [u.low, u.high] := rfl

/-- The serialized value pairs of the deploy_contract value loop: two
felts [value, 0] per token when every value is a u64. -/
theorem deployValues_flat (l : List ContractTokensInfo)
    (hv : ∀ t ∈ l, t.value < 2 ^ 64) :
    (l.map fun t => ({ low := castU128 t.value, high := 0 } : U256)).flatMap
        U256.cairo_serialize =
      l.flatMap fun t => [t.value, 0] := by
  induction l with
  | nil => rfl
  | cons a t ih =>
      simp only [List.map_cons, List.flatMap_cons]
      rw [ih fun x hx => hv x (List.mem_cons_of_mem a hx)]
      have ha : castU128 a.value = a.value :=
        Nat.mod_eq_of_lt (lt_trans (hv a (List.mem_cons_self a t)) (by norm_num))
      simp [U256.cairo_serialize, ha]

/-! ## Claims -/

/-- C1, a code bug: at the 64-hex token name of the value 1 the code
serializes [length, 0, 1]: it puts the high-order decoded bytes 0..16
into the low felt and the low-order bytes 16..32 into the high felt,
against the U256 field documentation, while the claimed big-endian
encoding serializes the pair [low, high] = [1, 0]. -/
theorem c1_tokens_to_felts_swapped :
    tokens_to_felts [tokenNameOne] = some [1, 0, 1] ∧
    (tokenU256Claimed tokenNameOne).map U256.cairo_serialize = some [1, 0] := by
  decide

/-- C9, a code bug: at the failing input, a one-felt buffer at offset 0,
the guard offset >= len passes and the read of felts[offset + 1] is out
of bounds, so the code panics where the claim requires a Deserialize
error for every buffer shorter than offset + 2; the error is returned
only when the buffer is at most offset felts long. -/
theorem c9_cairo_deserialize_one_felt_panics :
    U256.cairo_deserialize [0] 0 = .panicked ∧
    U256.cairo_deserialize [] 0 = .deserializeError ∧
    U256.cairo_deserialize [0, 0] 0 = .ok ⟨0, 0⟩ := by decide

/-- C10: deserializing the serialization of a U256 whose halves are
u128 values returns Ok of a value with the same low and high halves. -/
theorem c10_roundtrip (x : U256) (hl : x.low < 2 ^ 128)
    (hh : x.high < 2 ^ 128) :
    U256.cairo_deserialize (U256.cairo_serialize x) 0 = .ok ⟨x.low, x.high⟩ := by
  simp [U256.cairo_serialize, U256.cairo_deserialize]
  exact ⟨hl, hh⟩

/-- C10 witness: the round trip at the value with low 5 and high 7. -/
theorem c10_roundtrip_witness :
    U256.cairo_deserialize (U256.cairo_serialize ⟨5, 7⟩) 0 = .ok ⟨5, 7⟩ :=
  c10_roundtrip ⟨5, 7⟩ (by norm_num) (by norm_num)

/-- C8: selecting Mainnet makes deploy_contract and show_contract panic
on every input and every provider trace, producing no request (both the
client and the class-hash resolvers return none, the embedded panic),
while chain_id resolves Mainnet to the SN_MAIN short string without
panicking; the Sepolia resolvers all succeed. -/
theorem c8_mainnet_panics :
    (∀ f address recipient spec polls,
      deploy_contract f Network.mainnet address recipient spec polls = none) ∧
    (∀ contract_address accounts tokens,
      showContractRequest Network.mainnet contract_address accounts tokens =
        none) ∧
    class_hash Network.mainnet = none ∧
    clientOf Network.mainnet = none ∧
    chain_id Network.mainnet = cairoShortString "SN_MAIN" ∧
    chain_id Network.mainnet = 0x534e5f4d41494e ∧
    class_hash Network.sepolia ≠ none ∧
    clientOf Network.sepolia ≠ none :=
  ⟨fun _ _ _ _ _ => rfl, fun _ _ _ => rfl, rfl, rfl, rfl,
    by decide, by decide, by decide⟩

/-- C5: deploy_contract encodes every u64 token value exactly, with no
wrapping: the serialized value array is the length felt followed by the
pair [value, 0] for each token. -/
theorem c5_values_pairs (spec : ContractSpec)
    (hv : ∀ t ∈ spec.tokens, t.value < 2 ^ 64) :
    vecU256Serialize (deployValues spec) =
      spec.tokens.length :: (spec.tokens.flatMap fun t => [t.value, 0]) := by
  unfold vecU256Serialize deployValues
  rw [List.length_map, deployValues_flat spec.tokens hv]

/-- C5 witness: one token of value 3 serializes as [1, 3, 0]. -/
theorem c5_values_pairs_witness :
    vecU256Serialize (deployValues ⟨"uri", [⟨"a", 3⟩]⟩) = [1, 3, 0] :=
  c5_values_pairs ⟨"uri", [⟨"a", 3⟩]⟩ (by decide)

/-- C4: with the recipient parse and every token-name decode
successful, the constructor calldata deploy_contract builds is exactly
the ByteArray serialization of the base URI, one recipient felt, the
length-prefixed token-id pairs (two felts per token), then the
length-prefixed value pairs (two felts per token), and nothing else. -/
theorem c4_deploy_ctor_args (byteArraySer : String → List Nat)
    (spec : ContractSpec) (recipient : String) (r : Nat) (ids : List U256)
    (hr : fromHexBe recipient = some r)
    (hids : tokensToU256s (spec.tokens.map ContractTokensInfo.name) = some ids)
    (hv : ∀ t ∈ spec.tokens, t.value < 2 ^ 64) :
    deployCtorArgs byteArraySer spec recipient =
      some (byteArraySer spec.base_uri ++ [r]
        ++ (spec.tokens.length :: (ids.flatMap fun u => [u.low, u.high]))
        ++ (spec.tokens.length :: (spec.tokens.flatMap fun t => [t.value, 0]))) := by
  have hlen : ids.length = spec.tokens.length := by
    rw [tokensToU256s_length _ _ hids, List.length_map]
  simp only [deployCtorArgs, tokens_to_felts, hr, hids, deployValues]
  simp only [Option.some_bind, Option.map_some', vecU256Serialize,
    flatMap_serialize, hlen, List.length_map, List.append_assoc]
  rw [← flatMap_serialize
      (spec.tokens.map fun t => ({ low := castU128 t.value, high := 0 } : U256)),
    deployValues_flat spec.tokens hv]

/-- C4 witness: one token, the all-zero name with value 5, base URI
serialized to [9], recipient 0x2. -/
theorem c4_deploy_ctor_args_witness :
    deployCtorArgs (fun _ => [9]) ⟨"u", [⟨tokenNameZero, 5⟩]⟩ "0x2" =
      some [9, 2, 1, 0, 0, 1, 5, 0] :=
  c4_deploy_ctor_args (fun _ => [9]) ⟨"u", [⟨tokenNameZero, 5⟩]⟩ "0x2" 2
    [⟨0, 0⟩] (by decide) (by decide) (by decide)

/-- C6: with the client resolved (Sepolia) and every parse successful,
show_contract calls the balance_of_batch entry point of the given
contract at the Pending block, with calldata the serialized account
array (a length felt then the account felts) followed by the serialized
token-id array, in that order. -/
theorem c6_show_contract_call (contract_address : String)
    (accounts : List String) (tokens : List String) (ca : Nat)
    (accFelts : List Nat) (tokenFelts : List Nat)
    (hca : fromHexBe contract_address = some ca)
    (hacc : accountFelts? accounts = some accFelts)
    (htok : tokens_to_felts tokens = some tokenFelts) :
    showContractRequest Network.sepolia contract_address accounts tokens =
      some { contract_address := ca
             entry_point := "balance_of_batch"
             calldata := (accFelts.length :: accFelts) ++ tokenFelts
             blockTag := BlockTagM.pending } := by
  simp [showContractRequest, clientOf, hca, hacc, htok, vecFeltSerialize]

/-- C6 witness: contract 0x1, one account 0x2, no tokens. -/
theorem c6_show_contract_call_witness :
    showContractRequest Network.sepolia "0x1" ["0x2"] [] =
      some { contract_address := 1
             entry_point := "balance_of_batch"
             calldata := [1, 2, 0]
             blockTag := BlockTagM.pending } :=
  c6_show_contract_call "0x1" ["0x2"] [] 1 [2] [0]
    (by decide) (by decide) (by decide)

/-- C3: the polling delay is fixed: every sleep watch_tx performs on any
trace equals the poll_interval argument, so it never increases across
iterations, and every completed deploy_contract run hands watch_tx a
poll interval of 1000 ms, all its sleeps 1000 ms. -/
theorem c3_fixed_poll_interval :
    (∀ rs p, ∀ d ∈ watchTxSleeps rs p, d = p) ∧
    (∀ f network address recipient spec polls t,
      deploy_contract f network address recipient spec polls = some t →
        t.pollIntervalMillis = 1000 ∧
        t.sleepsMillis = watchTxSleeps polls 1000 ∧
        ∀ d ∈ t.sleepsMillis, d = 1000) := by
  have hs : ∀ rs p, ∀ d ∈ watchTxSleeps rs p, d = p := by
    intro rs p
    induction rs with
    | nil => intro d hd; simp [watchTxSleeps] at hd
    | cons a t ih =>
        intro d hd
        match a with
        | .err .txHashNotFound =>
            rw [watchTxSleeps] at hd
            rcases List.mem_cons.mp hd with h1 | h1
            · exact h1
            · exact ih d h1
        | .receipt r => simp [watchTxSleeps] at hd
        | .err (.otherFailure e) => simp [watchTxSleeps] at hd
  refine ⟨hs, ?_⟩
  intro f network address recipient spec polls t h
  unfold deploy_contract at h
  cases hc : clientOf network <;> rw [hc] at h
  · cases h
  · cases hch : class_hash network <;> rw [hch] at h
    · cases h
    · cases ha : fromStrFelt address <;> rw [ha] at h
      · cases h
      · cases hd : deployCtorArgs f spec recipient <;> rw [hd] at h
        · cases h
        · cases h
          exact ⟨rfl, rfl, fun d hdm => hs polls 1000 d hdm⟩

/-- watch_tx keeps polling (no return on the trace) exactly when every
response so far is TransactionHashNotFound. -/
theorem watch_tx_none_iff (rs : List PollOutcome) :
    watch_tx rs = none ↔
      ∀ x ∈ rs, x = PollOutcome.err ProviderErr.txHashNotFound := by
  induction rs with
  | nil => simp [watch_tx]
  | cons a t ih =>
      match a with
      | .receipt .succeeded => simp [watch_tx]
      | .receipt (.reverted r) => simp [watch_tx]
      | .err .txHashNotFound => simpa [watch_tx] using ih
      | .err (.otherFailure e) => simp [watch_tx]

/-- On a decisive head response, watch_tx returns its decision. -/
theorem watch_tx_cons_decisive (x : PollOutcome) (t : List PollOutcome)
    (v : Except ClientError Unit) (h : pollDecision x = some v) :
    watch_tx (x :: t) = some v := by
  cases x with
  | receipt r =>
      cases r with
      | succeeded => rw [watch_tx]; exact h
      | reverted reason => rw [watch_tx]; exact h
  | err e =>
      cases e with
      | txHashNotFound => simp [pollDecision] at h
      | otherFailure m => rw [watch_tx]; exact h

/-- watch_tx returns a value exactly when the trace is a block of
TransactionHashNotFound responses followed by a response whose
decision is that value. -/
theorem watch_tx_some_iff (rs : List PollOutcome) (v : Except ClientError Unit) :
    watch_tx rs = some v ↔
      ∃ pre d post, rs = pre ++ d :: post ∧
        (∀ x ∈ pre, x = PollOutcome.err ProviderErr.txHashNotFound) ∧
        pollDecision d = some v := by
  induction rs with
  | nil =>
      constructor
      · intro h; exact absurd h (by simp [watch_tx])
      · rintro ⟨pre, d, post, h, -, -⟩
        exact absurd h (by simp)
  | cons a t ih =>
      constructor
      · intro h
        match a with
        | .receipt .succeeded =>
            rw [watch_tx] at h
            exact ⟨[], .receipt .succeeded, t, rfl, by simp, h⟩
        | .receipt (.reverted r) =>
            rw [watch_tx] at h
            exact ⟨[], .receipt (.reverted r), t, rfl, by simp, h⟩
        | .err (.otherFailure e) =>
            rw [watch_tx] at h
            exact ⟨[], .err (.otherFailure e), t, rfl, by simp, h⟩
        | .err .txHashNotFound =>
            rw [watch_tx] at h
            obtain ⟨pre, d, post, hrs, hpre, hd⟩ := ih.mp h
            refine ⟨.err .txHashNotFound :: pre, d, post, by rw [hrs]; rfl,
              ?_, hd⟩
            intro x hx
            rcases List.mem_cons.mp hx with h1 | h1
            · exact h1
            · exact hpre x h1
      · rintro ⟨pre, d, post, hrs, hpre, hd⟩
        cases pre with
        | nil =>
            obtain ⟨h1, h2⟩ := List.cons.inj hrs
            subst h2
            rw [← h1] at hd
            exact watch_tx_cons_decisive a t v hd
        | cons y pre =>
            obtain ⟨h1, h2⟩ := List.cons.inj hrs
            have hy : a = PollOutcome.err ProviderErr.txHashNotFound := by
              rw [h1]
              exact hpre y (List.mem_cons_self y pre)
            rw [hy, watch_tx]
            exact ih.mpr ⟨pre, d, post, h2,
              fun x hx => hpre x (List.mem_cons_of_mem _ hx), hd⟩

/-- C2: watch_tx returns Ok exactly when a polled receipt reports
Succeeded (notFound responses before it), TransactionReverted with the
receipt's reason exactly when a polled receipt reports Reverted, and a
provider error exactly when the provider fails with an error other than
TransactionHashNotFound; on a trace of only TransactionHashNotFound it
returns nothing and polls again.  The four cases cover every value of
the result type, so it returns in no other way. -/
theorem c2_watch_tx_returns (rs : List PollOutcome) :
    (watch_tx rs = some (Except.ok ()) ↔
      ∃ pre post,
        rs = pre ++ PollOutcome.receipt ExecResult.succeeded :: post ∧
        ∀ x ∈ pre, x = PollOutcome.err ProviderErr.txHashNotFound) ∧
    (∀ reason,
      watch_tx rs = some (Except.error (ClientError.transactionReverted reason)) ↔
      ∃ pre post,
        rs = pre ++ PollOutcome.receipt (ExecResult.reverted reason) :: post ∧
        ∀ x ∈ pre, x = PollOutcome.err ProviderErr.txHashNotFound) ∧
    (∀ e,
      watch_tx rs = some (Except.error (ClientError.provider e)) ↔
      e ≠ ProviderErr.txHashNotFound ∧
      ∃ pre post, rs = pre ++ PollOutcome.err e :: post ∧
        ∀ x ∈ pre, x = PollOutcome.err ProviderErr.txHashNotFound) ∧
    (watch_tx rs = none ↔
      ∀ x ∈ rs, x = PollOutcome.err ProviderErr.txHashNotFound) := by
  refine ⟨?_, ?_, ?_, watch_tx_none_iff rs⟩
  · rw [watch_tx_some_iff]
    constructor
    · rintro ⟨pre, d, post, hrs, hpre, hd⟩
      match d, hd with
      | .receipt .succeeded, _ => exact ⟨pre, post, hrs, hpre⟩
      | .receipt (.reverted r), hd => simp [pollDecision] at hd
      | .err .txHashNotFound, hd => simp [pollDecision] at hd
      | .err (.otherFailure e), hd => simp [pollDecision] at hd
    · rintro ⟨pre, post, hrs, hpre⟩
      exact ⟨pre, .receipt .succeeded, post, hrs, hpre, rfl⟩
  · intro reason
    rw [watch_tx_some_iff]
    constructor
    · rintro ⟨pre, d, post, hrs, hpre, hd⟩
      match d, hd with
      | .receipt .succeeded, hd => simp [pollDecision] at hd
      | .receipt (.reverted r), hd =>
          simp only [pollDecision, Option.some.injEq] at hd
          have : r = reason := by
            injection hd with hd
            injection hd with hd
          subst this
          exact ⟨pre, post, hrs, hpre⟩
      | .err .txHashNotFound, hd => simp [pollDecision] at hd
      | .err (.otherFailure e), hd => simp [pollDecision] at hd
    · rintro ⟨pre, post, hrs, hpre⟩
      exact ⟨pre, .receipt (.reverted reason), post, hrs, hpre, rfl⟩
  · intro e
    rw [watch_tx_some_iff]
    constructor
    · rintro ⟨pre, d, post, hrs, hpre, hd⟩
      match d, hd with
      | .receipt .succeeded, hd => simp [pollDecision] at hd
      | .receipt (.reverted r), hd => simp [pollDecision] at hd
      | .err .txHashNotFound, hd => simp [pollDecision] at hd
      | .err (.otherFailure m), hd =>
          have he : ProviderErr.otherFailure m = e := by
            injection hd with hd
            injection hd with hd
            injection hd
          subst he
          exact ⟨by simp, pre, post, hrs, hpre⟩
    · rintro ⟨hne, pre, post, hrs, hpre⟩
      match e, hne with
      | .otherFailure m, _ =>
          exact ⟨pre, .err (.otherFailure m), post, hrs, hpre, rfl⟩

/-- C7 counterexample: on the one-element result [0] the element line
the code prints is padded to a total width of 64 characters counting
the 0x prefix, so it carries 62 hex digits, not the 64 digits the claim
states: the claimed line (66 characters of value) differs from the
printed one. -/
theorem c7_element_width_counterexample :
    showContractOutput [0] =
      ["[",
       "    \"0x00000000000000000000000000000000000000000000000000000000000000\"",
       "]"] ∧
    showContractOutput [0] ≠ ["[", "    \"" ++ hex64Digits 0 ++ "\"", "]"] ∧
    (rustHexFmt64 0).length = 64 ∧
    (hex64Digits 0).length = 66 := by decide

/-- C7 amended: show_contract prints "[]" exactly when the result is
empty; otherwise an opening bracket line, one line per element holding
its value quoted, 0x-prefixed and zero-padded to a minimum total width
of 64 characters counting the prefix (62 hex digits when the digits
fit), with a trailing comma on every line except the last element's,
then a closing bracket line. -/
theorem c7_output_shape (result : List Nat) :
    (showContractOutput result = ["[]"] ↔ result = []) ∧
    (result ≠ [] →
      ∃ lines, showContractOutput result = "[" :: lines ++ ["]"] ∧
        lines.length = result.length ∧
        ∀ i, i < result.length →
          lines[i]? = (result[i]?.map fun x =>
            "    \"" ++ rustHexFmt64 x ++ "\"" ++
              (if i = result.length - 1 then "" else ","))) ∧
    (∀ x, (rustHexFmt64 x).length = max 64 ((Nat.toDigits 16 x).length + 2)) ∧
    (∀ x, ∃ s, rustHexFmt64 x = "0x" ++ s) := by
  refine ⟨?_, ?_, ?_, fun x => ⟨_, rfl⟩⟩
  · cases result with
    | nil => simp [showContractOutput]
    | cons a t =>
        constructor
        · intro h
          have hl := congrArg List.length h
          simp [showContractOutput, List.enum_length] at hl
        · intro h
          exact absurd h (List.cons_ne_nil a t)
  · intro hne
    refine ⟨result.enum.map fun p =>
      "    \"" ++ rustHexFmt64 p.2 ++ "\"" ++
        (if p.1 = result.length - 1 then "" else ","), ?_, ?_, ?_⟩
    · rw [showContractOutput, if_neg]
      simp [hne]
    · simp [List.enum_length]
    · intro i hi
      rw [List.getElem?_map, List.getElem?_enum]
      cases hx : result[i]? with
      | none => rfl
      | some x => rfl
  · intro x
    show ("0x" ++ String.mk
      (List.replicate (62 - (Nat.toDigits 16 x).length) '0' ++
        Nat.toDigits 16 x)).length = _
    rw [String.length_append]
    show 2 + (List.replicate (62 - (Nat.toDigits 16 x).length) '0' ++
      Nat.toDigits 16 x).length = _
    rw [List.length_append, List.length_replicate]
    omega

end Marketplace
